import Mathlib

/-!
# Supply-driver protocol engine: verified embedding

Shallow embedding of the speem supply-driver contract: the voltage
calibration transform (`src/unnamed/part_000`, "HV Calibrations"), the
stage-then-burst command batch coordinator, the settings size-negotiation
codec, the communication-test enumerator and the host lifecycle discipline
(`supply-interface.txt`), and the shipped lens address table
(`lens_definitions.txt`).

The repository ships the interface contract, headers and static tables but
not the driver implementation itself; accordingly the executable behaviour
of the engine components is modelled faithfully from the specification's
words, while the lens address table is embedded verbatim from the source
file.
-/

namespace Speem

/-! ## Calibration Engine

Source `src/unnamed/part_000` gives the HV calibration map
`((V - Offset) / Maximum) * 65535 : float -> u16`; the engine around it
(rounding rule, clamping, degenerate-parameter error) is modelled from the
spec. Reals are modelled as exact rationals. -/

/-- Round half away from zero, the single rounding rule chosen for the
Calibration Engine (the spec requires one rule used consistently). -/
def roundHalfAway (q : ℚ) : ℤ :=
  if 0 ≤ q then ⌊q + 1 / 2⌋ else ⌈q - 1 / 2⌉

/-- Clamp an integer into `[lo, hi]`. -/
def clamp (x lo hi : ℤ) : ℤ := max lo (min hi x)

/-- Errors of the Calibration Engine. -/
inductive CalibError where
  | invalidCalibration
deriving DecidableEq, Repr

/-- Modelled from the spec: the Calibration Engine's `to_code`
(`to_code(voltage, offset, maximum) = clamp(round((voltage - offset) /
maximum * 65535), 0, 65535)`, with `maximum = 0` an error
(`InvalidCalibration`), never a silent division). The driver implementation
is not in the repository; only the formula of `part_000` is. -/
def to_code (voltage offset maximum : ℚ) : Except CalibError ℤ :=
  if maximum = 0 then Except.error CalibError.invalidCalibration
  else Except.ok (clamp (roundHalfAway ((voltage - offset) / maximum * 65535)) 0 65535)

/-- Modelled from the spec: the inverse calibration map
`to_voltage(code, offset, maximum) = code / 65535 * maximum + offset`. -/
def to_voltage (code : ℤ) (offset maximum : ℚ) : ℚ :=
  (code : ℚ) / 65535 * maximum + offset

/-! ### Calibration lemmas -/

theorem clamp_le (x lo hi : ℤ) (h : lo ≤ hi) : lo ≤ clamp x lo hi ∧ clamp x lo hi ≤ hi := by
  unfold clamp
  omega

theorem roundHalfAway_intCast (n : ℤ) : roundHalfAway (n : ℚ) = n := by
  unfold roundHalfAway
  split
  · rw [add_comm, Int.floor_add_int]
    norm_num
  · rw [sub_eq_add_neg, add_comm, Int.ceil_add_int]
    norm_num

/-- C1: for `maximum > 0`, `to_code` computes exactly the clamped rounded
affine image, and every produced code lies in `[0, 65535]`, including for
voltages whose unclamped image is out of range. -/
theorem to_code_clamps (voltage offset maximum : ℚ) (h : 0 < maximum) :
    to_code voltage offset maximum =
      Except.ok (clamp (roundHalfAway ((voltage - offset) / maximum * 65535)) 0 65535) ∧
    ∀ c : ℤ, to_code voltage offset maximum = Except.ok c → 0 ≤ c ∧ c ≤ 65535 := by
  have hne : maximum ≠ 0 := ne_of_gt h
  constructor
  · simp [to_code, hne]
  · intro c hc
    simp [to_code, hne] at hc
    have hb := clamp_le (roundHalfAway ((voltage - offset) / maximum * 65535)) 0 65535 (by omega)
    omega

/-- Witness for C1: an out-of-range voltage (2 volts on a 0-offset,
1-volt-maximum channel) still yields a code in range. -/
theorem to_code_clamps_witness :
    (0 : ℚ) < 1 ∧
    (to_code 2 0 1 =
       Except.ok (clamp (roundHalfAway ((2 - 0) / 1 * 65535)) 0 65535) ∧
     ∀ c : ℤ, to_code 2 0 1 = Except.ok c → 0 ≤ c ∧ c ≤ 65535) :=
  ⟨by norm_num, to_code_clamps 2 0 1 (by norm_num)⟩

/-- C7: `maximum = 0` always yields the `InvalidCalibration` error; the
division is never evaluated into a numeric code. -/
theorem to_code_zero_maximum (voltage offset : ℚ) :
    to_code voltage offset 0 = Except.error CalibError.invalidCalibration := by
  simp [to_code]

/-- C4: the round-trip `to_code (to_voltage c) = c` holds exactly (hence
within the claim's `c ± 1` tolerance) for every valid code `c ∈ [0, 65535]`
and every `maximum > 0`, under the single round-half-away-from-zero rule. -/
theorem to_code_to_voltage_roundtrip (c : ℤ) (offset maximum : ℚ)
    (hm : 0 < maximum) (hc0 : 0 ≤ c) (hc1 : c ≤ 65535) :
    to_code (to_voltage c offset maximum) offset maximum = Except.ok c := by
  have hne : maximum ≠ 0 := ne_of_gt hm
  have harg : (to_voltage c offset maximum - offset) / maximum * 65535 = (c : ℚ) := by
    unfold to_voltage
    field_simp
    ring
  rw [to_code, if_neg hne, harg, roundHalfAway_intCast]
  unfold clamp
  congr 1
  omega

/-- Witness for C4: code 32768 on the `offset = 0, maximum = 1000` channel
round-trips exactly. -/
theorem to_code_to_voltage_roundtrip_witness :
    (0 : ℚ) < 1000 ∧ (0 : ℤ) ≤ 32768 ∧ (32768 : ℤ) ≤ 65535 ∧
    to_code (to_voltage 32768 0 1000) 0 1000 = Except.ok 32768 :=
  ⟨by norm_num, by norm_num, by norm_num,
   to_code_to_voltage_roundtrip 32768 0 1000 (by norm_num) (by norm_num) (by norm_num)⟩

/-! ## Addresses and the shipped lens table

Embedded from
`src/speem/instruments/power_supply/garbo/lens_definitions/lens_definitions.txt`:
columns `address, ramp, name, description`; addresses are numeric (`0`, `11`,
…) or symbolic (`D1`…`D10`), mapping into one address space. -/

/-- A supply address: numeric, or symbolic `Dn` (modelled as `sym n`). -/
inductive Address where
  | num : ℤ → Address
  | sym : ℕ → Address
deriving DecidableEq, Repr

/-- One row of the lens table: `{address, ramp_rate_or_sentinel (-1 = no
ramping), symbolic_name, description}`. -/
structure LensDescriptor where
  address : Address
  ramp : ℤ
  name : String
  description : String
deriving DecidableEq, Repr

/-- The shipped lens table, row for row from `lens_definitions.txt`. -/
def lens_definitions : List LensDescriptor :=
  [⟨Address.num 0, -1, "L1V2", "Drift 1 Lens 2 Offset Voltage"⟩,
   ⟨Address.num 1, -1, "L1V2B", "Drift 1 Lens 2 Secondary Offset Voltage"⟩,
   ⟨Address.num 2, -1, "L1V1", "Drift 1 Lens 1 Offset Voltage"⟩,
   ⟨Address.num 3, -1, "L1V1B", "Drift 1 Lens 1 Secondary Offset Voltage"⟩,
   ⟨Address.num 4, -1, "IN", "Bandpass Input"⟩,
   ⟨Address.num 5, -1, "OUT", "Bandpass Output"⟩,
   ⟨Address.num 6, -1, "L2V1", "Drift 2 Lens 1 Offset Voltage"⟩,
   ⟨Address.num 7, -1, "L2V2", "Drift 2 Lens 2 Offset Voltage"⟩,
   ⟨Address.num 8, -1, "L3V1", "Straight Section Drift Offset Voltage"⟩,
   ⟨Address.num 9, -1, "BPF_V0", "Bandpass Center"⟩,
   ⟨Address.num 11, 100, "DRET2", "Spin Detector"⟩,
   ⟨Address.num 12, 100, "MCP2", "Spin Detector MCP"⟩,
   ⟨Address.num 13, 100, "ANODE2", "Spin Detector Anode"⟩,
   ⟨Address.num 17, 100, "DRET3", "Straight Section Detector"⟩,
   ⟨Address.num 18, 100, "MCP3", "Straight Section MCP"⟩,
   ⟨Address.num 19, 100, "ANODE3", "Straight Section Anode"⟩,
   ⟨Address.sym 1, -1, "L1V2C", "Drift 1 Lens 2 Fine Tuning Voltage"⟩,
   ⟨Address.sym 2, -1, "L1V3", "Drift First Deflector Offset"⟩,
   ⟨Address.sym 3, -1, "L1V4", "Drift Second Deflector Offset"⟩,
   ⟨Address.sym 4, -1, "L2V2B", "Drift 2 Lens 2 Secondary Offset"⟩,
   ⟨Address.sym 5, -1, "L2V3", "Drift 2 Lens 3"⟩,
   ⟨Address.sym 7, -1, "DX1", "Deflector 1-X"⟩,
   ⟨Address.sym 8, -1, "DY1", "Deflector 1-Y"⟩,
   ⟨Address.sym 9, -1, "DX2", "Deflector 2-X"⟩,
   ⟨Address.sym 10, -1, "DY2", "Deflector 2-Y"⟩]

/-- The legal address space: exactly the addresses the lens table lists. -/
def legalAddresses : List Address := lens_definitions.map LensDescriptor.address

/-! ## Command Batch Coordinator

Modelled from the spec: `stage_*` validates address and bit width, updates
only the in-memory staged set (last-write-wins per address); `burst`
attempts each staged command once against hardware, clears the staged set
regardless of outcomes, and succeeds iff every command applied.
`supply-interface.txt` documents `GDS_SUP_SetHV`/`SetDAC6`/`SetDAC20`/
`SetRegister`/`Burst` but the driver implementation is not in the
repository. -/

/-- The four staged command kinds. -/
inductive CommandKind where
  | hv
  | dac6
  | dac20
  | register
deriving DecidableEq, Repr

/-- Target encoding bit width per kind: 16-bit HV code, 6-bit DAC, 20-bit
DAC, byte register. -/
def bitWidth : CommandKind → ℕ
  | CommandKind.hv => 16
  | CommandKind.dac6 => 6
  | CommandKind.dac20 => 20
  | CommandKind.register => 8

/-- Value-range check: the value fits the target encoding's bit width. -/
def valueFits (k : CommandKind) (v : ℤ) : Bool :=
  decide (0 ≤ v) && decide (v < 2 ^ bitWidth k)

/-- A staged command: kind, value, and the optional HV period. -/
structure StagedCommand where
  kind : CommandKind
  value : ℤ
  period : Option ℤ
deriving DecidableEq, Repr

/-- Error kinds surfaced by the protocol engine. -/
inductive SupplyError where
  | invalidAddress
  | invalidValue
  | communicationFailure
  | protocolViolation
  | configMismatch
deriving DecidableEq, Repr

/-- Coordinator state: the in-memory staged set, an association list with
at most one entry per address. -/
structure Coordinator where
  staged : List (Address × StagedCommand)
deriving DecidableEq, Repr

/-- The staged-set well-formedness invariant: addresses are unique. -/
def WellFormed (co : Coordinator) : Prop :=
  (co.staged.map Prod.fst).Nodup

/-- Insert a staged command, superseding any earlier entry at the same
address (last-write-wins). -/
def stageInsert (staged : List (Address × StagedCommand)) (a : Address)
    (c : StagedCommand) : List (Address × StagedCommand) :=
  (a, c) :: staged.filter (fun q => decide (q.1 ≠ a))

/-- Look up the staged command for an address. -/
def stagedLookup (staged : List (Address × StagedCommand)) (a : Address) :
    Option StagedCommand :=
  (staged.find? (fun q => decide (q.1 = a))).map Prod.snd

/-- Modelled from the spec: a `stage_*` call (`set_hv`/`set_dac6`/
`set_dac20`/`set_register`). Validates the address against the legal
address list and the value against the target bit width; on success only
the staged set changes — hardware is never touched. -/
def stage (addrs : List Address) (co : Coordinator) (a : Address)
    (k : CommandKind) (v : ℤ) (p : Option ℤ) : Except SupplyError Coordinator :=
  if a ∈ addrs then
    if valueFits k v then Except.ok ⟨stageInsert co.staged a ⟨k, v, p⟩⟩
    else Except.error SupplyError.invalidValue
  else Except.error SupplyError.invalidAddress

/-- Hardware as observed through applied commands: the last command applied
per address. -/
structure Hardware where
  outputs : Address → Option StagedCommand

/-- Apply one command to hardware. -/
def applyOne (hw : Hardware) (p : Address × StagedCommand) : Hardware :=
  ⟨fun a => if a = p.1 then some p.2 else hw.outputs a⟩

/-- Apply a batch of commands left to right. -/
def applyAll (l : List (Address × StagedCommand)) (hw : Hardware) : Hardware :=
  l.foldl applyOne hw

/-- Result of a burst: new coordinator state, new hardware state, the list
of apply attempts made, and the aggregate status. -/
structure BurstResult where
  co : Coordinator
  hw : Hardware
  attempts : List (Address × StagedCommand)
  status : Except SupplyError Unit

/-- Modelled from the spec: `burst()` attempts every currently staged
command exactly once (the per-command hardware outcomes are the oracle
`ok`), applies the successful ones, clears the staged set regardless of
outcome, and returns success iff every staged command applied; partial
failure is the single aggregate `CommunicationFailure`. -/
def burst (ok : Address × StagedCommand → Bool) (co : Coordinator)
    (hw : Hardware) : BurstResult :=
  { co := ⟨[]⟩
    hw := applyAll (co.staged.filter ok) hw
    attempts := co.staged
    status :=
      if co.staged.all ok then Except.ok ()
      else Except.error SupplyError.communicationFailure }

/-! ### Coordinator lemmas -/

theorem stage_ok_eq (addrs : List Address) (co : Coordinator) (a : Address)
    (k : CommandKind) (v : ℤ) (p : Option ℤ) (co' : Coordinator)
    (h : stage addrs co a k v p = Except.ok co') :
    co' = ⟨stageInsert co.staged a ⟨k, v, p⟩⟩ := by
  unfold stage at h
  split at h
  · split at h
    · exact (Except.ok.injEq _ _).mp h.symm |>.symm ▸ rfl
    · exact absurd h (by simp)
  · exact absurd h (by simp)

theorem not_mem_filter_ne_keys (staged : List (Address × StagedCommand))
    (a : Address) :
    a ∉ (staged.filter (fun q => decide (q.1 ≠ a))).map Prod.fst := by
  intro hmem
  rcases List.mem_map.mp hmem with ⟨q, hq, hqa⟩
  rcases List.mem_filter.mp hq with ⟨_, hne⟩
  exact (decide_eq_true_eq.mp hne) hqa

theorem wellFormed_stageInsert (co : Coordinator) (a : Address)
    (c : StagedCommand) (h : WellFormed co) :
    WellFormed ⟨stageInsert co.staged a c⟩ := by
  unfold WellFormed stageInsert at *
  simp only [List.map_cons, List.nodup_cons]
  refine ⟨not_mem_filter_ne_keys co.staged a, ?_⟩
  exact h.sublist (List.Sublist.map Prod.fst (List.filter_sublist _))

theorem applyAll_outputs_of_not_mem (l : List (Address × StagedCommand))
    (hw : Hardware) (a : Address) (h : a ∉ l.map Prod.fst) :
    (applyAll l hw).outputs a = hw.outputs a := by
  induction l generalizing hw with
  | nil => rfl
  | cons p t ih =>
    simp only [List.map_cons, List.mem_cons, not_or] at h
    have step : (applyOne hw p).outputs a = hw.outputs a := by
      simp [applyOne, h.1]
    rw [applyAll, List.foldl_cons]
    rw [show t.foldl applyOne (applyOne hw p) = applyAll t (applyOne hw p) from rfl]
    rw [ih (applyOne hw p) h.2, step]

theorem applyAll_outputs_of_mem (l : List (Address × StagedCommand))
    (hw : Hardware) (a : Address) (c : StagedCommand)
    (hnd : (l.map Prod.fst).Nodup) (hmem : (a, c) ∈ l) :
    (applyAll l hw).outputs a = some c := by
  induction l generalizing hw with
  | nil => exact absurd hmem (List.not_mem_nil _)
  | cons p t ih =>
    simp only [List.map_cons, List.nodup_cons] at hnd
    rw [applyAll, List.foldl_cons]
    rw [show t.foldl applyOne (applyOne hw p) = applyAll t (applyOne hw p) from rfl]
    rcases List.mem_cons.mp hmem with heq | ht
    · have hka : a ∉ t.map Prod.fst := by
        rw [show a = p.1 from congrArg Prod.fst heq]
        exact hnd.1
      rw [applyAll_outputs_of_not_mem t (applyOne hw p) a hka]
      simp [applyOne, ← heq]
    · exact ih (applyOne hw p) hnd.2 ht

/-- C2: for a well-formed staged set, `burst` clears the staged set
unconditionally, succeeds iff every staged command applied, attempts
exactly the staged commands (so at most one attempt per address), and
trivially succeeds on an empty staged set. -/
theorem burst_contract (ok : Address × StagedCommand → Bool)
    (co : Coordinator) (hw : Hardware) (hwf : WellFormed co) :
    (burst ok co hw).co.staged = [] ∧
    ((burst ok co hw).status = Except.ok () ↔ co.staged.all ok = true) ∧
    (burst ok co hw).attempts = co.staged ∧
    ((burst ok co hw).attempts.map Prod.fst).Nodup ∧
    (co.staged = [] → (burst ok co hw).status = Except.ok ()) := by
  refine ⟨rfl, ?_, rfl, hwf, ?_⟩
  · unfold burst
    split
    · simp_all
    · simp_all
  · intro hempty
    simp [burst, hempty]

/-- Witness for C2: a one-command staged set with an all-succeed oracle. -/
theorem burst_contract_witness :
    WellFormed ⟨[(Address.num 5, ⟨CommandKind.hv, 200, none⟩)]⟩ ∧
    ((burst (fun _ => true) ⟨[(Address.num 5, ⟨CommandKind.hv, 200, none⟩)]⟩
        ⟨fun _ => none⟩).co.staged = [] ∧
     ((burst (fun _ => true) ⟨[(Address.num 5, ⟨CommandKind.hv, 200, none⟩)]⟩
        ⟨fun _ => none⟩).status = Except.ok () ↔
       ([(Address.num 5, (⟨CommandKind.hv, 200, none⟩ : StagedCommand))].all
         (fun _ => true)) = true) ∧
     (burst (fun _ => true) ⟨[(Address.num 5, ⟨CommandKind.hv, 200, none⟩)]⟩
        ⟨fun _ => none⟩).attempts =
       [(Address.num 5, ⟨CommandKind.hv, 200, none⟩)] ∧
     ((burst (fun _ => true) ⟨[(Address.num 5, ⟨CommandKind.hv, 200, none⟩)]⟩
        ⟨fun _ => none⟩).attempts.map Prod.fst).Nodup ∧
     ([(Address.num 5, (⟨CommandKind.hv, 200, none⟩ : StagedCommand))] =
         ([] : List (Address × StagedCommand)) →
       (burst (fun _ => true) ⟨[(Address.num 5, ⟨CommandKind.hv, 200, none⟩)]⟩
        ⟨fun _ => none⟩).status = Except.ok ())) :=
  ⟨by simp [WellFormed],
   burst_contract (fun _ => true) ⟨[(Address.num 5, ⟨CommandKind.hv, 200, none⟩)]⟩
     ⟨fun _ => none⟩ (by simp [WellFormed])⟩

/-- C3: staging twice at the same address with no intervening burst leaves
a well-formed staged set (at most one command per address) whose entry at
that address is the later command, and the next burst applies exactly the
later value there. -/
theorem stage_last_write_wins (addrs : List Address) (co co₁ co₂ : Coordinator)
    (a : Address) (k₁ k₂ : CommandKind) (v₁ v₂ : ℤ) (p₁ p₂ : Option ℤ)
    (hw : Hardware) (ok : Address × StagedCommand → Bool)
    (hwf : WellFormed co)
    (h₁ : stage addrs co a k₁ v₁ p₁ = Except.ok co₁)
    (h₂ : stage addrs co₁ a k₂ v₂ p₂ = Except.ok co₂)
    (hok : ok (a, ⟨k₂, v₂, p₂⟩) = true) :
    stagedLookup co₂.staged a = some ⟨k₂, v₂, p₂⟩ ∧
    WellFormed co₂ ∧
    (burst ok co₂ hw).hw.outputs a = some ⟨k₂, v₂, p₂⟩ := by
  have e₁ := stage_ok_eq addrs co a k₁ v₁ p₁ co₁ h₁
  have e₂ := stage_ok_eq addrs co₁ a k₂ v₂ p₂ co₂ h₂
  have hwf₁ : WellFormed co₁ := e₁ ▸ wellFormed_stageInsert co a ⟨k₁, v₁, p₁⟩ hwf
  have hwf₂ : WellFormed co₂ := e₂ ▸ wellFormed_stageInsert co₁ a ⟨k₂, v₂, p₂⟩ hwf₁
  refine ⟨?_, hwf₂, ?_⟩
  · rw [e₂]
    simp [stagedLookup, stageInsert, List.find?]
  · have hmem : (a, (⟨k₂, v₂, p₂⟩ : StagedCommand)) ∈ co₂.staged.filter ok := by
      rw [e₂]
      exact List.mem_filter.mpr ⟨List.mem_cons_self _ _, hok⟩
    have hnd : ((co₂.staged.filter ok).map Prod.fst).Nodup :=
      hwf₂.sublist (List.Sublist.map Prod.fst (List.filter_sublist _))
    exact applyAll_outputs_of_mem _ hw a _ hnd hmem

/-- Witness for C3: staging `address=5, value=100` then `address=5,
value=200` and bursting applies only `200`. -/
theorem stage_last_write_wins_witness :
    WellFormed ⟨[]⟩ ∧
    stage legalAddresses ⟨[]⟩ (Address.num 5) CommandKind.hv 100 none =
      Except.ok ⟨[(Address.num 5, ⟨CommandKind.hv, 100, none⟩)]⟩ ∧
    stage legalAddresses ⟨[(Address.num 5, ⟨CommandKind.hv, 100, none⟩)]⟩
        (Address.num 5) CommandKind.hv 200 none =
      Except.ok ⟨[(Address.num 5, ⟨CommandKind.hv, 200, none⟩)]⟩ ∧
    (stagedLookup [(Address.num 5, ⟨CommandKind.hv, 200, none⟩)] (Address.num 5) =
       some ⟨CommandKind.hv, 200, none⟩ ∧
     WellFormed ⟨[(Address.num 5, ⟨CommandKind.hv, 200, none⟩)]⟩ ∧
     (burst (fun _ => true) ⟨[(Address.num 5, ⟨CommandKind.hv, 200, none⟩)]⟩
        ⟨fun _ => none⟩).hw.outputs (Address.num 5) =
       some ⟨CommandKind.hv, 200, none⟩) :=
  ⟨by simp [WellFormed], by rfl, by rfl,
   stage_last_write_wins legalAddresses ⟨[]⟩
     ⟨[(Address.num 5, ⟨CommandKind.hv, 100, none⟩)]⟩
     ⟨[(Address.num 5, ⟨CommandKind.hv, 200, none⟩)]⟩
     (Address.num 5) CommandKind.hv CommandKind.hv 100 200 none none
     ⟨fun _ => none⟩ (fun _ => true)
     (by simp [WellFormed]) (by rfl) (by rfl) rfl⟩

/-- C9: the legal address space is sparse: numeric `0`–`9`, `11`–`13`,
`17`–`19` and symbolic `D1`–`D5`, `D7`–`D10` are present, while `10`,
`14`–`16` and `D6` are absent; staging at gap address `10` fails with
`InvalidAddress`. -/
theorem lens_table_sparse :
    (∀ n : ℤ, (0 ≤ n ∧ n ≤ 9) ∨ (11 ≤ n ∧ n ≤ 13) ∨ (17 ≤ n ∧ n ≤ 19) →
      Address.num n ∈ legalAddresses) ∧
    (∀ n : ℕ, (1 ≤ n ∧ n ≤ 5) ∨ (7 ≤ n ∧ n ≤ 10) → Address.sym n ∈ legalAddresses) ∧
    Address.num 10 ∉ legalAddresses ∧
    Address.num 14 ∉ legalAddresses ∧
    Address.num 15 ∉ legalAddresses ∧
    Address.num 16 ∉ legalAddresses ∧
    Address.sym 6 ∉ legalAddresses ∧
    (∀ co : Coordinator, ∀ k : CommandKind, ∀ v : ℤ, ∀ p : Option ℤ,
      stage legalAddresses co (Address.num 10) k v p =
        Except.error SupplyError.invalidAddress) := by
  refine ⟨?_, ?_, by decide, by decide, by decide, by decide, by decide, ?_⟩
  · intro n hn
    have : n = 0 ∨ n = 1 ∨ n = 2 ∨ n = 3 ∨ n = 4 ∨ n = 5 ∨ n = 6 ∨ n = 7 ∨
        n = 8 ∨ n = 9 ∨ n = 11 ∨ n = 12 ∨ n = 13 ∨ n = 17 ∨ n = 18 ∨ n = 19 := by
      omega
    rcases this with h | h | h | h | h | h | h | h | h | h | h | h | h | h | h | h <;>
      subst h <;> decide
  · intro n hn
    have : n = 1 ∨ n = 2 ∨ n = 3 ∨ n = 4 ∨ n = 5 ∨ n = 7 ∨ n = 8 ∨ n = 9 ∨
        n = 10 := by omega
    rcases this with h | h | h | h | h | h | h | h | h <;> subst h <;> decide
  · intro co k v p
    rw [stage, if_neg (by decide)]

/-! ## Settings Codec

Modelled from the spec: `GDS_SUP_GetSetup`/`GDS_SUP_SetSetup` exchange the
driver's opaque settings block with negotiate-by-size; the driver
implementation is not in the repository, only the contract of
`supply-interface.txt` §1.4–1.5. Bytes are modelled as naturals, the
caller's buffer as an explicit list. -/

/-- Driver-side persisted configuration: the opaque settings block. -/
structure SettingsDriver where
  block : List ℕ
deriving DecidableEq, Repr

/-- The size the driver requires for its settings block. -/
def requiredSize (d : SettingsDriver) : ℕ := d.block.length

/-- Modelled from the spec: `get_settings(buffer, buffer_size) →
(written buffer, required_size, ok)`. On size mismatch: `ok = false`, the
correct size is reported, nothing is written (the buffer is returned
unchanged). On match: the full block is written and `ok = true`. -/
def get_settings (d : SettingsDriver) (buffer : List ℕ) (buffer_size : ℕ) :
    List ℕ × ℕ × Bool :=
  if buffer_size = requiredSize d then (d.block, requiredSize d, true)
  else (buffer, requiredSize d, false)

/-- Modelled from the spec: `set_settings(buffer, size) → (driver, ok)`.
On size mismatch the call fails and the persisted configuration is
untouched; on match the configuration is replaced wholesale. -/
def set_settings (d : SettingsDriver) (buffer : List ℕ) (size : ℕ) :
    SettingsDriver × Bool :=
  if size = requiredSize d then (⟨buffer⟩, true)
  else (d, false)

/-- C5: the settings codec never partially transfers state: a mismatched
`get_settings` fails, reports the required size and writes nothing; the
retry at that size writes the full block and succeeds; a mismatched
`set_settings` fails leaving the configuration unchanged; a matched
`set_settings` replaces it wholesale. -/
theorem settings_codec_no_partial_transfer (d : SettingsDriver)
    (buffer retry_buffer : List ℕ) (n : ℕ) (hneq : n ≠ requiredSize d) :
    get_settings d buffer n = (buffer, requiredSize d, false) ∧
    get_settings d retry_buffer (requiredSize d) = (d.block, requiredSize d, true) ∧
    set_settings d buffer n = (d, false) ∧
    set_settings d buffer (requiredSize d) = (⟨buffer⟩, true) := by
  refine ⟨?_, ?_, ?_, ?_⟩ <;> simp [get_settings, set_settings, hneq]

/-- Witness for C5: a 3-byte block probed with a 0-sized buffer. -/
theorem settings_codec_no_partial_transfer_witness :
    (0 ≠ requiredSize ⟨[7, 8, 9]⟩) ∧
    (get_settings ⟨[7, 8, 9]⟩ [] 0 = ([], requiredSize ⟨[7, 8, 9]⟩, false) ∧
     get_settings ⟨[7, 8, 9]⟩ [0, 0, 0] (requiredSize ⟨[7, 8, 9]⟩) =
       ([7, 8, 9], requiredSize ⟨[7, 8, 9]⟩, true) ∧
     set_settings ⟨[7, 8, 9]⟩ [] 0 = (⟨[7, 8, 9]⟩, false) ∧
     set_settings ⟨[7, 8, 9]⟩ [] (requiredSize ⟨[7, 8, 9]⟩) = (⟨[]⟩, true)) :=
  ⟨by decide, settings_codec_no_partial_transfer ⟨[7, 8, 9]⟩ [] [0, 0, 0] 0 (by decide)⟩

/-! ## Communication Enumerator

Modelled from the spec: `GDS_SUP_TestCommunication` is called first with
id `0`; each call reports the next unit id or the sentinel `-1`; a driver
that never emits `-1` would cause an endless loop, so the host applies a
defensive iteration cap surfaced as `ProtocolViolation`
(`supply-interface.txt` §2.2; the host loop itself is not in the
repository). The driver's successor behaviour is the function `next`. -/

/-- The id reached after `n` driver steps from `id`. -/
def iterFrom (next : ℤ → ℤ) (id : ℤ) : ℕ → ℤ
  | 0 => id
  | n + 1 => next (iterFrom next id n)

/-- Modelled from the spec: the host's enumeration loop with its mandatory
defensive cap (`fuel`). Returns the list of unit ids tested, or
`ProtocolViolation` when the cap trips before the sentinel `-1` arrives. -/
def runEnum (next : ℤ → ℤ) : ℕ → ℤ → Except SupplyError (List ℤ)
  | 0, _ => Except.error SupplyError.protocolViolation
  | fuel + 1, id =>
    if id = -1 then Except.ok []
    else
      match runEnum next fuel (next id) with
      | Except.ok rest => Except.ok (id :: rest)
      | Except.error e => Except.error e

theorem iterFrom_shift (next : ℤ → ℤ) (id : ℤ) (n : ℕ) :
    iterFrom next (next id) n = iterFrom next id (n + 1) := by
  induction n with
  | zero => rfl
  | succ m ih =>
    show next (iterFrom next (next id) m) = iterFrom next id (m + 1 + 1)
    rw [ih]
    rfl

theorem runEnum_ok_of_hits (next : ℤ → ℤ) :
    ∀ n fuel : ℕ, ∀ id : ℤ, iterFrom next id n = -1 → n < fuel →
      ∃ l, runEnum next fuel id = Except.ok l := by
  intro n
  induction n with
  | zero =>
    intro fuel id hhit hlt
    have hid : id = -1 := hhit
    match fuel, hlt with
    | f + 1, _ =>
      exact ⟨[], by rw [runEnum, if_pos hid]⟩
  | succ m ih =>
    intro fuel id hhit hlt
    match fuel, hlt with
    | f + 1, _ =>
      by_cases hid : id = -1
      · exact ⟨[], by rw [runEnum, if_pos hid]⟩
      · have hnext : iterFrom next (next id) m = -1 := by
          rw [iterFrom_shift]
          exact hhit
        obtain ⟨rest, hrest⟩ := ih f (next id) hnext (by omega)
        exact ⟨id :: rest, by rw [runEnum, if_neg hid, hrest]⟩

theorem runEnum_error_of_never (next : ℤ → ℤ) :
    ∀ fuel : ℕ, ∀ id : ℤ, (∀ n, iterFrom next id n ≠ -1) →
      runEnum next fuel id = Except.error SupplyError.protocolViolation := by
  intro fuel
  induction fuel with
  | zero => intro id _; rfl
  | succ f ih =>
    intro id hnever
    have hid : id ≠ -1 := hnever 0
    have hnext : ∀ n, iterFrom next (next id) n ≠ -1 := by
      intro n
      rw [iterFrom_shift]
      exact hnever (n + 1)
    rw [runEnum, if_neg hid, ih (next id) hnext]

/-- C6: a conformant driver (its orbit from `0` reaches the sentinel `-1`
within the cap) makes the enumeration terminate successfully; a driver
that never emits `-1` trips the host's mandatory cap and the failure
surfaces as `ProtocolViolation`, never an endless loop. -/
theorem enumerator_terminates (next : ℤ → ℤ) (cap : ℕ) :
    (∀ n : ℕ, iterFrom next 0 n = -1 → n < cap →
      ∃ l, runEnum next cap 0 = Except.ok l) ∧
    ((∀ n : ℕ, iterFrom next 0 n ≠ -1) →
      runEnum next cap 0 = Except.error SupplyError.protocolViolation) := by
  exact ⟨fun n hhit hlt => runEnum_ok_of_hits next n cap 0 hhit hlt,
         fun hnever => runEnum_error_of_never next cap 0 hnever⟩

/-- Witness for C6: a three-unit conformant driver terminates, and a
driver stuck on unit `5` trips the cap with `ProtocolViolation`. -/
theorem enumerator_terminates_witness :
    (∃ l, runEnum (fun i => if 2 ≤ i then -1 else i + 1) 5 0 = Except.ok l) ∧
    runEnum (fun _ => (5 : ℤ)) 4 0 = Except.error SupplyError.protocolViolation := by
  constructor
  · exact (enumerator_terminates (fun i => if 2 ≤ i then -1 else i + 1) 5).1 3
      (by decide) (by decide)
  · refine (enumerator_terminates (fun _ => (5 : ℤ)) 4).2 ?_
    intro n
    cases n with
    | zero => decide
    | succ m => simp [iterFrom]

/-! ## Host lifecycle discipline

Modelled from the spec: the host drives a driver through
`Uninitialized → Ready → Finalized`; a nonzero status from the init call is
fatal — the host unloads the driver and issues no further call on it
(`supply-interface.txt` §1.1 remark; the host implementation is not in the
repository). A host/driver execution is a trace of issued calls with the
status the init call returned. -/

/-- One issued driver call, as the host's trace records it. -/
inductive HostEvent where
  | initEv (status : ℤ)
  | setupEv
  | setSettingsEv
  | getSettingsEv
  | resetEv
  | testCommEv
  | stageHVEv (address value period : ℤ)
  | stageDAC6Ev (address value : ℤ)
  | stageDAC20Ev (address value : ℤ)
  | stageRegisterEv (address value : ℤ)
  | burstEv
  | finalizeEv
deriving DecidableEq, Repr

/-- Calls legal while the driver is `Ready` (everything except the init
call and the finalize call). -/
def isReadyOp : HostEvent → Bool
  | HostEvent.initEv _ => false
  | HostEvent.finalizeEv => false
  | _ => true

/-- The `Ready` phase of a trace: any number of ready-state operations,
then at most one final finalize call (after which nothing is legal). -/
inductive ReadyPhase : List HostEvent → Prop
  | nil : ReadyPhase []
  | fin : ReadyPhase [HostEvent.finalizeEv]
  | cons (e : HostEvent) (tr : List HostEvent) :
      isReadyOp e = true → ReadyPhase tr → ReadyPhase (e :: tr)

/-- Modelled from the spec: the host/driver executions the host may
produce. Either the init call fails fatally and the trace ends there, or it
succeeds (status 0) and a `Ready` phase follows, or the driver implements
no init call and the trace is just a `Ready` phase. -/
inductive HostTrace : List HostEvent → Prop
  | fatalInit (s : ℤ) : s ≠ 0 → HostTrace [HostEvent.initEv s]
  | okInit (tr : List HostEvent) : ReadyPhase tr →
      HostTrace (HostEvent.initEv 0 :: tr)
  | noInit (tr : List HostEvent) : ReadyPhase tr → HostTrace tr

theorem readyPhase_no_init (tr : List HostEvent) (h : ReadyPhase tr) (s : ℤ) :
    HostEvent.initEv s ∉ tr := by
  induction h with
  | nil => exact List.not_mem_nil _
  | fin =>
    intro hmem
    cases List.mem_singleton.mp hmem
  | cons e t he _ ih =>
    intro hmem
    rcases List.mem_cons.mp hmem with heq | ht
    · rw [← heq] at he
      exact absurd he (by rw [isReadyOp]; exact Bool.false_ne_true)
    · exact ih ht

/-- C8: in every legal host/driver execution, a fatal (nonzero) init
status ends the trace — the trace is exactly that one call, so no stage,
burst, finalize or any other operation ever follows it. -/
theorem fatal_init_ends_trace (tr : List HostEvent) (s : ℤ)
    (htr : HostTrace tr) (hmem : HostEvent.initEv s ∈ tr) (hs : s ≠ 0) :
    tr = [HostEvent.initEv s] := by
  cases htr with
  | fatalInit t ht =>
    cases List.mem_singleton.mp hmem
    rfl
  | okInit t hrp =>
    rcases List.mem_cons.mp hmem with heq | hin
    · cases heq
      exact absurd rfl hs
    · exact absurd hin (readyPhase_no_init t hrp s)
  | noInit t hrp =>
    exact absurd hmem (readyPhase_no_init tr hrp s)

/-- Witness for C8: a trace whose init call returned 12001 contains
nothing else. -/
theorem fatal_init_ends_trace_witness :
    HostTrace [HostEvent.initEv 12001] ∧
    HostEvent.initEv 12001 ∈ [HostEvent.initEv 12001] ∧
    (12001 : ℤ) ≠ 0 ∧
    [HostEvent.initEv 12001] = [HostEvent.initEv 12001] :=
  ⟨HostTrace.fatalInit 12001 (by decide), List.mem_singleton.mpr rfl, by decide,
   fatal_init_ends_trace [HostEvent.initEv 12001] 12001
     (HostTrace.fatalInit 12001 (by decide)) (List.mem_singleton.mpr rfl)
     (by decide)⟩

/-! ## The one-byte `boolean` type

Embedded from `supply-interface.txt` §0.1: `boolean` is one byte with
ordinal 1 for true and 0 for false; a value different from 0 and 1 still
evaluates to true but can break boolean arithmetic, so a conforming
driver's `GDS_SUP_Setup` must always return 0 or 1. -/

/-- The ordinal the one-byte `boolean` type defines for each truth value:
1 for true, 0 for false. -/
def boolOrdinal : Bool → ℕ
  | false => 0
  | true => 1

/-- How the host's `boolean` type evaluates a received byte: any nonzero
ordinal evaluates to true. -/
def evalBoolean (b : ℕ) : Bool := decide (b ≠ 0)

/-- Conformance of a returned byte: its ordinal must be exactly 0 or 1. -/
def booleanConformant (b : ℕ) : Bool := decide (b = 0 ∨ b = 1)

/-- Modelled from the spec: a conforming `setup()` returns the `boolean`
ordinal of its "settings changed" flag. -/
def GDS_SUP_Setup (changed : Bool) : ℕ := boolOrdinal changed

/-- C10: a returned byte is conformant iff its ordinal is exactly 0 or 1;
conformant bytes round-trip through the host's boolean evaluation, while
any other byte evaluates to true yet breaks the ordinal identity (boolean
arithmetic); a conforming `setup()` always returns a conformant byte. -/
theorem setup_boolean_conformance (b : ℕ) (hb : b < 256) :
    (booleanConformant b = true ↔ b = boolOrdinal false ∨ b = boolOrdinal true) ∧
    (booleanConformant b = true → boolOrdinal (evalBoolean b) = b) ∧
    (booleanConformant b = false →
      evalBoolean b = true ∧ boolOrdinal (evalBoolean b) ≠ b) ∧
    (∀ changed : Bool, booleanConformant (GDS_SUP_Setup changed) = true) := by
  refine ⟨?_, ?_, ?_, ?_⟩
  · simp [booleanConformant, boolOrdinal]
  · intro h
    rcases decide_eq_true_eq.mp h with h0 | h1
    · simp [h0, evalBoolean, boolOrdinal]
    · simp [h1, evalBoolean, boolOrdinal]
  · intro h
    have hno : ¬(b = 0 ∨ b = 1) := of_decide_eq_false h
    have hb0 : b ≠ 0 := fun h0 => hno (Or.inl h0)
    have hb1 : b ≠ 1 := fun h1 => hno (Or.inr h1)
    refine ⟨by simp [evalBoolean, hb0], ?_⟩
    simp [evalBoolean, hb0, boolOrdinal]
    omega
  · intro changed
    cases changed <;> decide

/-- Witness for C10: the byte 2 is within one byte, non-conformant, and
evaluates to true while breaking the ordinal identity. -/
theorem setup_boolean_conformance_witness :
    2 < 256 ∧
    ((booleanConformant 2 = true ↔ 2 = boolOrdinal false ∨ 2 = boolOrdinal true) ∧
     (booleanConformant 2 = true → boolOrdinal (evalBoolean 2) = 2) ∧
     (booleanConformant 2 = false →
       evalBoolean 2 = true ∧ boolOrdinal (evalBoolean 2) ≠ 2) ∧
     (∀ changed : Bool, booleanConformant (GDS_SUP_Setup changed) = true)) :=
  ⟨by decide, setup_boolean_conformance 2 (by decide)⟩

end Speem
